import Mathlib

/-!
Verification of the duckdb-webdavfs WebDAV filesystem extension.

This file gives a shallow embedding of the core algorithms of the
repository (the write-buffer/spill engine, the flush/commit logic, the
retry executor, the glob matcher, the PROPFIND response parser and the
directory-creation logic) and proves or refutes the specification claims
about them.  Every definition is translated from the C++ sources
(`src/webdavfs.cpp`, `src/httpfs_curl_client.cpp`, `src/webdav_extension.cpp`)
unless its doc comment says it is modelled from the spec.
-/

namespace WebDAVFS

/-! ## Write-buffer engine (WebDAVFileHandle write state)

State of a `WebDAVFileHandle` that is open for writing, from
`include/webdavfs.hpp`: the in-memory `write_buffer`, the `buffer_dirty`
flag, the spill flag `using_temp_file`, and `file_offset`.  The staging
file on disk is modelled by its contents `temp_file`.  Bytes are `Nat`
(their numeric value never matters, only their sequence). -/

structure HandleState where
  write_buffer : List Nat
  buffer_dirty : Bool
  using_temp_file : Bool
  temp_file : List Nat
  file_offset : Nat
  deriving DecidableEq, Repr

/-- Fresh open-for-write handle: empty buffer, clean, not spilled. -/
def initState : HandleState := ⟨[], false, false, [], 0⟩

/-- The location `WebDAVFileSystem::Write` expects:
`wfh.using_temp_file ? wfh.file_offset : wfh.write_buffer.size()`. -/
def expectedLocation (s : HandleState) : Nat :=
  if s.using_temp_file then s.file_offset else s.write_buffer.length

/-- `WebDAVFileSystem::Write` (webdavfs.cpp).  Returns `none` when the
IOException for a non-sequential write is thrown; the rejection happens
before any buffer or temp-file mutation (no network or disk I/O).
Otherwise: spill to the temp file when the buffer is still in memory and
`write_buffer.size() + nr_bytes > streaming_threshold`, then append the
data to the temp file (spilled) or the memory buffer (in memory), mark
dirty and advance `file_offset`. -/
def Write (streaming_threshold : Nat) (s : HandleState) (location : Nat)
    (data : List Nat) : Option HandleState :=
  if location ≠ expectedLocation s then none
  else
    let s1 :=
      if ¬ s.using_temp_file ∧ streaming_threshold < s.write_buffer.length + data.length then
        { s with temp_file := s.write_buffer, using_temp_file := true, write_buffer := [] }
      else s
    let s2 :=
      if s1.using_temp_file then { s1 with temp_file := s1.temp_file ++ data }
      else { s1 with write_buffer := s1.write_buffer ++ data }
    some { s2 with buffer_dirty := true, file_offset := s2.file_offset + data.length }

/-- The body handed to a PUT by `FlushBuffer`: either the in-memory buffer
(`PutRequest`) or the staging file streamed from disk (`PutRequestFromFile`). -/
inductive UploadSource
  | fromMemory (bytes : List Nat)
  | fromTempFile (contents : List Nat)
  deriving DecidableEq, Repr

/-- The byte content an `UploadSource` transfers. -/
def UploadSource.contents : UploadSource → List Nat
  | fromMemory b => b
  | fromTempFile c => c

/-- First half of `WebDAVFileHandle::FlushBuffer`: the early return when
`!buffer_dirty && !using_temp_file`, otherwise the materialization of the
upload body.  In spilled mode the remaining in-memory buffer is appended
to the temp file and cleared before the streamed upload; in memory the
buffer itself is the PUT body.  Returns the upload source and the handle
state at the moment the PUT is issued. -/
def FlushMaterialize (s : HandleState) : Option (UploadSource × HandleState) :=
  if ¬ s.buffer_dirty ∧ ¬ s.using_temp_file then none
  else if s.using_temp_file then
    let temp := s.temp_file ++ s.write_buffer
    some (.fromTempFile temp, { s with temp_file := temp, write_buffer := [] })
  else
    some (.fromMemory s.write_buffer, s)

/-- PUT statuses `FlushBuffer` accepts: 200, 201, 204. -/
def putStatusOk (status : Nat) : Bool :=
  status == 200 || status == 201 || status == 204

/-- Statuses that make `FlushBuffer` create parent directories and retry:
400, 404, 409. -/
def triggersDirCreateRetry (status : Nat) : Bool :=
  status == 400 || status == 404 || status == 409

/-- Full `WebDAVFileHandle::FlushBuffer`, parameterized by the remote
environment: `firstStatus` is the status of the initial PUT,
`dirCreateOk` says whether `CreateDirectoryRecursive` completed without
throwing (its exception is swallowed, in which case the retry PUT inside
the same try block is skipped), and `retryStatus` is the status of the
retried PUT.  The retry PUT is issued from the in-memory `write_buffer`
(`PutRequest(..., write_buffer.data(), write_buffer.size(), ...)`), which
in spilled mode has already been cleared by the materialization step.
Returns the list of PUT bodies issued in order, and `some` cleared state
on success or `none` for the final IOException.  (The handle path is an
absolute HTTP URL, so the `rfind('/')` guard before the retry always
succeeds and is not modelled.) -/
def FlushBuffer (s : HandleState) (firstStatus : Nat) (dirCreateOk : Bool)
    (retryStatus : Nat) : List UploadSource × Option HandleState :=
  match FlushMaterialize s with
  | none => ([], some s)
  | some (src, s1) =>
    let statusPuts :=
      if triggersDirCreateRetry firstStatus then
        if dirCreateOk then
          (retryStatus, [src, UploadSource.fromMemory s1.write_buffer])
        else (firstStatus, [src])
      else (firstStatus, [src])
    if putStatusOk statusPuts.1 then
      (statusPuts.2, some { s1 with write_buffer := [], buffer_dirty := false })
    else (statusPuts.2, none)

/-- A `FileSync` whose PUT succeeds (`WebDAVFileSystem::FileSync` calls
`FlushBuffer`): nothing happens when there is nothing to flush, otherwise
the buffer is cleared and marked clean.  The temp file and `file_offset`
are untouched. -/
def FileSyncOk (s : HandleState) : HandleState :=
  match FlushMaterialize s with
  | none => s
  | some (_, s1) => { s1 with write_buffer := [], buffer_dirty := false }

/-- The content a flush at state `s` would upload (`none` when the early
return fires and no PUT is issued). -/
def FlushUpload (s : HandleState) : Option (List Nat) :=
  (FlushMaterialize s).map (fun p => p.1.contents)

/-! ### Operation sequences over a write handle -/

/-- One user-visible operation on an open-for-write handle. -/
inductive Op
  | write (location : Nat) (data : List Nat)
  | sync
  deriving DecidableEq, Repr

/-- Run a sequence of operations from a state; `none` as soon as a write
is rejected.  `sync` is a `FileSync` whose PUT succeeds. -/
def runOps (threshold : Nat) : HandleState → List Op → Option HandleState
  | s, [] => some s
  | s, Op.write loc data :: rest =>
    match Write threshold s loc data with
    | none => none
    | some s1 => runOps threshold s1 rest
  | s, Op.sync :: rest => runOps threshold (FileSyncOk s) rest

/-- All bytes carried by the writes of an operation sequence, in order. -/
def allWritten : List Op → List Nat
  | [] => []
  | Op.write _ d :: rest => d ++ allWritten rest
  | Op.sync :: rest => allWritten rest

/-- Bytes written since the last sync of the sequence (accumulator form). -/
def writtenSinceSyncAux (acc : List Nat) : List Op → List Nat
  | [] => acc
  | Op.write _ d :: rest => writtenSinceSyncAux (acc ++ d) rest
  | Op.sync :: rest => writtenSinceSyncAux [] rest

/-- Bytes written since the last sync of the sequence. -/
def writtenSinceSync (ops : List Op) : List Nat := writtenSinceSyncAux [] ops

/-- The write sequence in which each write's offset is the running total
of bytes previously written, starting at `off`. -/
def seqWriteOpsAux (off : Nat) : List (List Nat) → List Op
  | [] => []
  | d :: rest => Op.write off d :: seqWriteOpsAux (off + d.length) rest

/-- Sequential writes of the chunks `ws`, with each offset equal to the
running total of previously written bytes. -/
def seqWriteOps (ws : List (List Nat)) : List Op := seqWriteOpsAux 0 ws

/-! ### Computation lemmas for the write engine -/

lemma Write_reject (T : Nat) (s : HandleState) (loc : Nat) (d : List Nat)
    (hloc : loc ≠ expectedLocation s) : Write T s loc d = none := by
  simp [Write, hloc]

lemma Write_spilled (T : Nat) (s : HandleState) (loc : Nat) (d : List Nat)
    (hu : s.using_temp_file = true) (hloc : loc = expectedLocation s) :
    Write T s loc d =
      some { s with temp_file := s.temp_file ++ d, buffer_dirty := true,
                    file_offset := s.file_offset + d.length } := by
  simp [Write, hloc, hu]

lemma Write_mem_nospill (T : Nat) (s : HandleState) (loc : Nat) (d : List Nat)
    (hu : s.using_temp_file = false) (hle : s.write_buffer.length + d.length ≤ T)
    (hloc : loc = expectedLocation s) :
    Write T s loc d =
      some { s with write_buffer := s.write_buffer ++ d, buffer_dirty := true,
                    file_offset := s.file_offset + d.length } := by
  simp [Write, hloc, hu, Nat.not_lt.mpr hle]

lemma Write_mem_spill (T : Nat) (s : HandleState) (loc : Nat) (d : List Nat)
    (hu : s.using_temp_file = false) (hgt : T < s.write_buffer.length + d.length)
    (hloc : loc = expectedLocation s) :
    Write T s loc d =
      some { s with write_buffer := [], using_temp_file := true,
                    temp_file := s.write_buffer ++ d, buffer_dirty := true,
                    file_offset := s.file_offset + d.length } := by
  simp [Write, hloc, hu, hgt]

lemma FileSyncOk_clean (s : HandleState) (hd : s.buffer_dirty = false)
    (hu : s.using_temp_file = false) : FileSyncOk s = s := by
  simp [FileSyncOk, FlushMaterialize, hd, hu]

lemma FileSyncOk_spilled (s : HandleState) (hu : s.using_temp_file = true) :
    FileSyncOk s = { s with temp_file := s.temp_file ++ s.write_buffer,
                            write_buffer := [], buffer_dirty := false } := by
  simp [FileSyncOk, FlushMaterialize, hu]

lemma FileSyncOk_mem (s : HandleState) (hd : s.buffer_dirty = true)
    (hu : s.using_temp_file = false) :
    FileSyncOk s = { s with write_buffer := [], buffer_dirty := false } := by
  simp [FileSyncOk, FlushMaterialize, hd, hu]

lemma FlushUpload_spilled (s : HandleState) (hu : s.using_temp_file = true) :
    FlushUpload s = some (s.temp_file ++ s.write_buffer) := by
  simp [FlushUpload, FlushMaterialize, hu, UploadSource.contents]

lemma FlushUpload_mem (s : HandleState) (hd : s.buffer_dirty = true)
    (hu : s.using_temp_file = false) : FlushUpload s = some s.write_buffer := by
  simp [FlushUpload, FlushMaterialize, hd, hu, UploadSource.contents]

lemma FlushUpload_clean (s : HandleState) (hd : s.buffer_dirty = false)
    (hu : s.using_temp_file = false) : FlushUpload s = none := by
  simp [FlushUpload, FlushMaterialize, hd, hu]

/-! ### Invariant for sync-free sequential-write runs -/

/-- Invariant of a write run: `acc` is the concatenation of all accepted
bytes.  The staging file followed by the buffer always holds exactly
`acc`; the cursor `file_offset` is `acc.length`; in memory the buffer
never exceeds the threshold; once spilled, the buffer is empty and the
threshold has been strictly exceeded. -/
def WInv (T : Nat) (s : HandleState) (acc : List Nat) : Prop :=
  s.temp_file ++ s.write_buffer = acc ∧
  s.file_offset = acc.length ∧
  (s.using_temp_file = false → s.temp_file = [] ∧ s.write_buffer.length ≤ T) ∧
  (s.using_temp_file = true → s.write_buffer = [] ∧ T < acc.length)

lemma WInv_init (T : Nat) : WInv T initState [] := by
  refine ⟨rfl, rfl, fun _ => ⟨rfl, by simp [initState]⟩, fun h => by simp [initState] at h⟩

lemma WInv_expectedLocation {T : Nat} {s : HandleState} {acc : List Nat}
    (h : WInv T s acc) : expectedLocation s = acc.length := by
  obtain ⟨h1, h2, h3, h4⟩ := h
  unfold expectedLocation
  cases hu : s.using_temp_file with
  | true => simpa [hu] using h2
  | false =>
    obtain ⟨ht, _⟩ := h3 hu
    simp only [hu, Bool.false_eq_true, if_false]
    rw [← h1, ht, List.nil_append]

lemma WInv_write_step {T : Nat} {s : HandleState} {acc : List Nat} (d : List Nat)
    (h : WInv T s acc) :
    ∃ s1, Write T s acc.length d = some s1 ∧ WInv T s1 (acc ++ d) ∧
      s1.buffer_dirty = true ∧
      s1.using_temp_file = (s.using_temp_file || decide (T < s.write_buffer.length + d.length)) := by
  have hloc : acc.length = expectedLocation s := (WInv_expectedLocation h).symm
  obtain ⟨h1, h2, h3, h4⟩ := h
  cases hu : s.using_temp_file with
  | true =>
    obtain ⟨hbuf, hT⟩ := h4 hu
    have htemp : s.temp_file = acc := by rw [← h1, hbuf, List.append_nil]
    rw [Write_spilled T s acc.length d hu hloc]
    refine ⟨_, rfl, ⟨?_, ?_, ?_, ?_⟩, rfl, by simp [hu]⟩
    · show s.temp_file ++ d ++ s.write_buffer = acc ++ d
      rw [hbuf, List.append_nil, htemp]
    · show s.file_offset + d.length = (acc ++ d).length
      simp [h2]
    · intro hfalse; simp [hu] at hfalse
    · intro _
      refine ⟨hbuf, ?_⟩
      show T < (acc ++ d).length
      rw [List.length_append]; omega
  | false =>
    obtain ⟨ht, hlen⟩ := h3 hu
    have hbuf_acc : s.write_buffer = acc := by rw [← h1, ht, List.nil_append]
    by_cases hgt : T < s.write_buffer.length + d.length
    · rw [Write_mem_spill T s acc.length d hu hgt hloc]
      refine ⟨_, rfl, ⟨?_, ?_, ?_, ?_⟩, rfl, by simp [hu, hgt]⟩
      · show s.write_buffer ++ d ++ [] = acc ++ d
        rw [List.append_nil, hbuf_acc]
      · show s.file_offset + d.length = (acc ++ d).length
        simp [h2]
      · intro hfalse; simp at hfalse
      · intro _
        refine ⟨rfl, ?_⟩
        show T < (acc ++ d).length
        rw [List.length_append, ← hbuf_acc]
        exact hgt
    · rw [Write_mem_nospill T s acc.length d hu (Nat.not_lt.mp hgt) hloc]
      refine ⟨_, rfl, ⟨?_, ?_, ?_, ?_⟩, rfl, by simp [hu, hgt]⟩
      · show s.temp_file ++ (s.write_buffer ++ d) = acc ++ d
        rw [ht, List.nil_append, hbuf_acc]
      · show s.file_offset + d.length = (acc ++ d).length
        simp [h2]
      · intro _
        refine ⟨ht, ?_⟩
        show (s.write_buffer ++ d).length ≤ T
        rw [List.length_append]; omega
      · intro hfalse; simp [hu] at hfalse

lemma WInv_runSeq (T : Nat) (ws : List (List Nat)) :
    ∀ s acc, WInv T s acc →
      ∃ s1, runOps T s (seqWriteOpsAux acc.length ws) = some s1 ∧
        WInv T s1 (acc ++ ws.flatten) ∧
        (s.buffer_dirty = true ∨ ws ≠ [] → s1.buffer_dirty = true) := by
  induction ws with
  | nil =>
    intro s acc h
    exact ⟨s, rfl, by simpa using h, fun hd => by
      rcases hd with hd | hne
      · exact hd
      · exact absurd rfl hne⟩
  | cons d rest ih =>
    intro s acc h
    obtain ⟨s1, hw, hinv1, hd1, _⟩ := WInv_write_step d h
    obtain ⟨s2, hrun, hinv2, hd2⟩ := ih s1 (acc ++ d) hinv1
    refine ⟨s2, ?_, ?_, ?_⟩
    · simp only [seqWriteOpsAux, runOps, hw]
      simpa [List.length_append] using hrun
    · simpa [List.flatten, List.append_assoc] using hinv2
    · intro _
      exact hd2 (Or.inl hd1)

lemma runOps_file_offset (T : Nat) :
    ∀ (ops : List Op) (s s1 : HandleState), runOps T s ops = some s1 →
      s1.file_offset = s.file_offset + (allWritten ops).length := by
  intro ops
  induction ops with
  | nil => intro s s1 h; simp [runOps] at h; simp [h.symm, allWritten]
  | cons op rest ih =>
    intro s s1 h
    cases op with
    | write loc d =>
      simp only [runOps] at h
      cases hw : Write T s loc d with
      | none => rw [hw] at h; exact absurd h (by simp)
      | some s' =>
        rw [hw] at h
        have hoff : s'.file_offset = s.file_offset + d.length := by
          by_cases hloc : loc = expectedLocation s
          · cases hu : s.using_temp_file with
            | true => rw [Write_spilled T s loc d hu hloc] at hw; cases hw; rfl
            | false =>
              by_cases hgt : T < s.write_buffer.length + d.length
              · rw [Write_mem_spill T s loc d hu hgt hloc] at hw; cases hw; rfl
              · rw [Write_mem_nospill T s loc d hu (Nat.not_lt.mp hgt) hloc] at hw
                cases hw; rfl
          · rw [Write_reject T s loc d hloc] at hw; exact absurd hw (by simp)
        rw [ih s' s1 h, hoff, allWritten]
        simp [Nat.add_assoc, Nat.add_comm d.length]
    | sync =>
      simp only [runOps] at h
      have hoff : (FileSyncOk s).file_offset = s.file_offset := by
        by_cases hu : s.using_temp_file = true
        · rw [FileSyncOk_spilled s hu]
        · have hu' : s.using_temp_file = false := by simpa using hu
          by_cases hd : s.buffer_dirty = true
          · rw [FileSyncOk_mem s hd hu']
          · rw [FileSyncOk_clean s (by simpa using hd) hu']
      rw [ih (FileSyncOk s) s1 h, hoff, allWritten]

/-! ### Ghost run: bytes accumulated since the last in-memory flush

`runGhost` is `runOps` instrumented with the list `g` of bytes accepted
since the last flush that happened while the handle was in in-memory
mode (a spilled-mode flush keeps the staging file, so it does not reset
`g`). -/

def runGhost (threshold : Nat) :
    HandleState → List Nat → List Op → Option (HandleState × List Nat)
  | s, g, [] => some (s, g)
  | s, g, Op.write loc d :: rest =>
    match Write threshold s loc d with
    | none => none
    | some s1 => runGhost threshold s1 (g ++ d) rest
  | s, g, Op.sync :: rest =>
    runGhost threshold (FileSyncOk s) (if s.using_temp_file then g else []) rest

lemma runGhost_runOps (T : Nat) :
    ∀ (ops : List Op) (s : HandleState) (g : List Nat),
      (runGhost T s g ops).map Prod.fst = runOps T s ops := by
  intro ops
  induction ops with
  | nil => intro s g; rfl
  | cons op rest ih =>
    intro s g
    cases op with
    | write loc d =>
      simp only [runGhost, runOps]
      cases Write T s loc d with
      | none => rfl
      | some s1 => exact ih s1 (g ++ d)
    | sync => exact ih (FileSyncOk s) _

/-- Invariant tying a handle state to the ghost `g`: the staging file and
the buffer together hold exactly the bytes accepted since the last
in-memory flush; a clean buffer is empty; in memory there is no staging
file; once spilled the buffer is kept empty between writes and syncs. -/
def GInv (s : HandleState) (g : List Nat) : Prop :=
  s.temp_file ++ s.write_buffer = g ∧
  (s.buffer_dirty = false → s.write_buffer = []) ∧
  (s.using_temp_file = false → s.temp_file = []) ∧
  (s.using_temp_file = true → s.write_buffer = [])

lemma GInv_init : GInv initState [] := by
  exact ⟨rfl, fun _ => rfl, fun _ => rfl, fun h => by simp [initState] at h⟩

lemma GInv_run (T : Nat) :
    ∀ (ops : List Op) (s : HandleState) (g h : List Nat) (s1 : HandleState) (g1 : List Nat),
      GInv s g → (s.using_temp_file = false → g = h) →
      runGhost T s g ops = some (s1, g1) →
      GInv s1 g1 ∧ (s1.using_temp_file = false → g1 = writtenSinceSyncAux h ops) := by
  intro ops
  induction ops with
  | nil =>
    intro s g h s1 g1 hinv hgh hrun
    simp only [runGhost] at hrun
    cases hrun
    exact ⟨hinv, fun hu => by simpa [writtenSinceSyncAux] using hgh hu⟩
  | cons op rest ih =>
    intro s g h s1 g1 hinv hgh hrun
    obtain ⟨h1, h2, h3, h4⟩ := hinv
    cases op with
    | write loc d =>
      simp only [runGhost] at hrun
      cases hw : Write T s loc d with
      | none => rw [hw] at hrun; exact absurd hrun (by simp)
      | some s' =>
        rw [hw] at hrun
        by_cases hloc : loc = expectedLocation s
        · cases hu : s.using_temp_file with
          | true =>
            rw [Write_spilled T s loc d hu hloc] at hw
            cases hw
            refine ih _ _ (h ++ d) s1 g1 ⟨?_, ?_, ?_, ?_⟩ ?_ hrun |>.imp id ?_
            · show s.temp_file ++ d ++ s.write_buffer = g ++ d
              rw [h4 hu, List.append_nil] at h1 ⊢
              rw [h1]
            · intro hfalse; simp at hfalse
            · intro hfalse; simp [hu] at hfalse
            · intro _; exact h4 hu
            · intro hfalse; simp [hu] at hfalse
            · intro hsince hu1
              simpa [writtenSinceSyncAux] using hsince hu1
          | false =>
            by_cases hgt : T < s.write_buffer.length + d.length
            · rw [Write_mem_spill T s loc d hu hgt hloc] at hw
              cases hw
              refine ih _ _ (h ++ d) s1 g1 ⟨?_, ?_, ?_, ?_⟩ ?_ hrun |>.imp id ?_
              · show s.write_buffer ++ d ++ [] = g ++ d
                rw [h3 hu, List.nil_append] at h1
                rw [List.append_nil, h1]
              · intro hfalse; simp at hfalse
              · intro hfalse; simp at hfalse
              · intro _; rfl
              · intro hfalse; simp at hfalse
              · intro hsince hu1
                simpa [writtenSinceSyncAux] using hsince hu1
            · rw [Write_mem_nospill T s loc d hu (Nat.not_lt.mp hgt) hloc] at hw
              cases hw
              refine ih _ _ (h ++ d) s1 g1 ⟨?_, ?_, ?_, ?_⟩ ?_ hrun |>.imp id ?_
              · show s.temp_file ++ (s.write_buffer ++ d) = g ++ d
                rw [h3 hu, List.nil_append] at h1 ⊢
                rw [h1]
              · intro hfalse; simp at hfalse
              · intro _; exact h3 hu
              · intro hfalse; simp [hu] at hfalse
              · intro _
                rw [hgh hu]
              · intro hsince hu1
                simpa [writtenSinceSyncAux] using hsince hu1
        · rw [Write_reject T s loc d hloc] at hw; exact absurd hw (by simp)
    | sync =>
      simp only [runGhost] at hrun
      cases hu : s.using_temp_file with
      | true =>
        rw [hu] at hrun
        simp only [if_true] at hrun
        rw [FileSyncOk_spilled s hu] at hrun
        refine ih _ _ [] s1 g1 ⟨?_, ?_, ?_, ?_⟩ ?_ hrun |>.imp id ?_
        · show s.temp_file ++ s.write_buffer ++ [] = g
          rw [List.append_nil, h1]
        · intro _; rfl
        · intro hfalse; simp [hu] at hfalse
        · intro _; rfl
        · intro hfalse; simp [hu] at hfalse
        · intro hsince hu1
          simpa [writtenSinceSyncAux] using hsince hu1
      | false =>
        rw [hu] at hrun
        simp only [Bool.false_eq_true, if_false] at hrun
        have hnext : FileSyncOk s = { s with write_buffer := [], buffer_dirty := false } := by
          by_cases hd : s.buffer_dirty = true
          · exact FileSyncOk_mem s hd hu
          · rw [FileSyncOk_clean s (by simpa using hd) hu]
            have : s.write_buffer = [] := h2 (by simpa using hd)
            cases s
            simp_all
        rw [hnext] at hrun
        refine ih _ _ [] s1 g1 ⟨?_, ?_, ?_, ?_⟩ ?_ hrun |>.imp id ?_
        · show s.temp_file ++ [] = []
          rw [List.append_nil, h3 hu]
        · intro _; rfl
        · intro _; exact h3 hu
        · intro hfalse; simp [hu] at hfalse
        · intro _; rfl
        · intro hsince hu1
          simpa [writtenSinceSyncAux] using hsince hu1

/-! ## Claims C1-C4 -/

/-- C1: for every sequence of writes whose offsets equal the running total
of bytes previously written, all writes are accepted, and the content a
final commit (Close/FlushBuffer) uploads equals the concatenation of all
written byte ranges; when the cumulative size stays at or below the spill
threshold the commit is an in-memory PUT body, when it exceeds it the
commit streams the staging file; and a write step spills exactly when the
handle is still in memory and `buffered_size + incoming_size > threshold`. -/
theorem claim_C1 (T : Nat) (ws : List (List Nat)) :
    (∃ s, runOps T initState (seqWriteOps ws) = some s ∧
       (FlushUpload s).getD [] = ws.flatten ∧
       (ws ≠ [] → FlushUpload s = some ws.flatten) ∧
       (s.using_temp_file = true ↔ T < ws.flatten.length) ∧
       (ws ≠ [] → (FlushMaterialize s).map Prod.fst =
         some (if T < ws.flatten.length then UploadSource.fromTempFile ws.flatten
               else UploadSource.fromMemory ws.flatten))) ∧
    (∀ s loc d, s.using_temp_file = false →
      ((Write T s loc d).elim false HandleState.using_temp_file = true ↔
        (loc = expectedLocation s ∧ T < s.write_buffer.length + d.length))) := by
  constructor
  · by_cases hws : ws = []
    · subst hws
      refine ⟨initState, rfl, ?_, ?_, ?_, ?_⟩
      · simp [FlushUpload, FlushMaterialize, initState]
      · intro h; exact absurd rfl h
      · simp [initState]
      · intro h; exact absurd rfl h
    · obtain ⟨s, hrun, hinv, hdirty⟩ := WInv_runSeq T ws initState [] (WInv_init T)
      have hd : s.buffer_dirty = true := hdirty (Or.inr hws)
      rw [List.nil_append] at hinv
      obtain ⟨e1, e2, e3, e4⟩ := hinv
      have hiff : s.using_temp_file = true ↔ T < ws.flatten.length := by
        constructor
        · intro hu; exact (e4 hu).2
        · intro hlt
          by_contra hu
          have hu' : s.using_temp_file = false := by simpa using hu
          obtain ⟨ht, hle⟩ := e3 hu'
          rw [← e1, ht, List.nil_append] at hlt
          omega
      have hupload : FlushUpload s = some ws.flatten := by
        cases hu : s.using_temp_file with
        | true => rw [FlushUpload_spilled s hu, e1]
        | false =>
          obtain ⟨ht, _⟩ := e3 hu
          rw [FlushUpload_mem s hd hu, ← e1, ht, List.nil_append]
      refine ⟨s, hrun, by rw [hupload]; rfl, fun _ => hupload, hiff, fun _ => ?_⟩
      cases hu : s.using_temp_file with
      | true =>
        rw [if_pos (hiff.mp hu)]
        simp only [FlushMaterialize]
        rw [if_neg (by simp [hd]), if_pos (by simp [hu])]
        simp [e1]
      | false =>
        rw [if_neg (fun hlt => by simp [hiff.mpr hlt] at hu)]
        obtain ⟨ht, _⟩ := e3 hu
        simp only [FlushMaterialize]
        rw [if_neg (by simp [hd]), if_neg (by simp [hu])]
        show some (UploadSource.fromMemory s.write_buffer) = some (UploadSource.fromMemory ws.flatten)
        rw [← e1, ht, List.nil_append]
  · intro s loc d hu
    by_cases hloc : loc = expectedLocation s
    · by_cases hgt : T < s.write_buffer.length + d.length
      · rw [Write_mem_spill T s loc d hu hgt hloc]
        constructor
        · intro _; exact ⟨hloc, hgt⟩
        · intro _; rfl
      · rw [Write_mem_nospill T s loc d hu (Nat.not_lt.mp hgt) hloc]
        simp only [Option.elim_some]
        constructor
        · intro hfalse; simp [hu] at hfalse
        · intro h; exact absurd h.2 hgt
    · rw [Write_reject T s loc d hloc]
      simp [hloc]

/-- Witness for C1 at a concrete input. -/
theorem claim_C1_witness :
    (∃ s, runOps 1 initState (seqWriteOps [[5], [6]]) = some s ∧
       (FlushUpload s).getD [] = [[5], [6]].flatten ∧
       ([[5], [6]] ≠ ([] : List (List Nat)) → FlushUpload s = some [[5], [6]].flatten) ∧
       (s.using_temp_file = true ↔ 1 < [[5], [6]].flatten.length) ∧
       ([[5], [6]] ≠ ([] : List (List Nat)) → (FlushMaterialize s).map Prod.fst =
         some (if 1 < [[5], [6]].flatten.length
               then UploadSource.fromTempFile [[5], [6]].flatten
               else UploadSource.fromMemory [[5], [6]].flatten))) ∧
    (∀ s loc d, s.using_temp_file = false →
      ((Write 1 s loc d).elim false HandleState.using_temp_file = true ↔
        (loc = expectedLocation s ∧ 1 < s.write_buffer.length + d.length))) :=
  claim_C1 1 [[5], [6]]

/-- C2 counterexample: after `write 0 [5]` and a successful in-memory
Sync, the total number of bytes accepted on the handle is 1, yet a write
at offset 1 is rejected while a write at offset 0 is accepted — the
accept/reject rule is not "offset equals total bytes accepted so far"
once a Sync has occurred in in-memory mode. -/
theorem claim_C2_cx :
    runOps 10 initState [Op.write 0 [5], Op.sync] = some ⟨[], false, false, [], 1⟩ ∧
    allWritten [Op.write 0 [5], Op.sync] = [5] ∧
    Write 10 ⟨[], false, false, [], 1⟩ 1 [6] = none ∧
    (Write 10 ⟨[], false, false, [], 1⟩ 0 [6]).isSome = true := by decide

/-- C2 (amended): a write is accepted iff its offset equals the handle's
expected location — the cumulative `file_offset` (total bytes accepted
since open) in spilled mode, the in-memory buffer length (bytes accepted
since the last flush) in in-memory mode; rejection is synchronous, before
any buffer, disk or network effect.  For sync-free sequential runs, and
always in spilled mode, the expected location equals the total number of
bytes accepted so far. -/
theorem claim_C2 :
    (∀ T s loc d, (Write T s loc d).isSome = true ↔ loc = expectedLocation s) ∧
    (∀ T ws, ∃ s, runOps T initState (seqWriteOps ws) = some s ∧
       expectedLocation s = ws.flatten.length) ∧
    (∀ T ops s, runOps T initState ops = some s →
       s.file_offset = (allWritten ops).length ∧
       (s.using_temp_file = true → expectedLocation s = (allWritten ops).length)) := by
  refine ⟨?_, ?_, ?_⟩
  · intro T s loc d
    constructor
    · intro h
      by_contra hloc
      rw [Write_reject T s loc d hloc] at h
      simp at h
    · intro hloc
      simp [Write, hloc]
  · intro T ws
    obtain ⟨s, hrun, hinv, _⟩ := WInv_runSeq T ws initState [] (WInv_init T)
    rw [List.nil_append] at hinv
    exact ⟨s, hrun, WInv_expectedLocation hinv⟩
  · intro T ops s hrun
    have hoff := runOps_file_offset T ops initState s hrun
    simp only [initState] at hoff
    rw [Nat.zero_add] at hoff
    refine ⟨hoff, fun hu => ?_⟩
    rw [expectedLocation, if_pos hu, hoff]

/-- Witness for C2 at a concrete input. -/
theorem claim_C2_witness : (Write 7 initState 0 [1, 2]).isSome = true :=
  (claim_C2.1 7 initState 0 [1, 2]).mpr (by decide)

/-- C3 counterexample: in in-memory mode, `write [5]`, Sync, `write [6]`:
the next Sync uploads only `[6]`, not the entire accumulated content
`[5, 6]` — a Sync does not re-upload everything written since open in
in-memory mode. -/
theorem claim_C3_cx :
    runOps 10 initState [Op.write 0 [5], Op.sync, Op.write 0 [6]] =
      some ⟨[6], true, false, [], 2⟩ ∧
    FlushUpload ⟨[6], true, false, [], 2⟩ = some [6] ∧
    allWritten [Op.write 0 [5], Op.sync, Op.write 0 [6]] = [5, 6] := by decide

/-- C3 (amended): every flush uploads exactly the bytes accumulated since
the last flush performed in in-memory mode (all bytes since open when no
such flush occurred).  In spilled mode the staging file persists across
Syncs, so each Sync re-uploads the entire staging-file content; in
in-memory mode the buffer is cleared by each successful Sync, so a later
Sync uploads only the bytes written since the previous Sync.  After a
Sync that flushed, the buffer is empty and clean, and subsequent writes
start a new buffered segment. -/
theorem claim_C3 :
    (∀ T ops s g, runGhost T initState [] ops = some (s, g) →
       runOps T initState ops = some s ∧
       (∀ u, FlushUpload s = some u → u = g) ∧
       (s.using_temp_file = false → g = writtenSinceSync ops) ∧
       (s.using_temp_file = true →
          FlushUpload s = some (s.temp_file ++ s.write_buffer))) ∧
    (∀ s, s.buffer_dirty = true ∨ s.using_temp_file = true →
       (FileSyncOk s).write_buffer = [] ∧ (FileSyncOk s).buffer_dirty = false) ∧
    (∀ s, s.using_temp_file = true →
       (FileSyncOk s).temp_file = s.temp_file ++ s.write_buffer ∧
       (FileSyncOk s).using_temp_file = true) := by
  refine ⟨?_, ?_, ?_⟩
  · intro T ops s g hrun
    have hops : runOps T initState ops = some s := by
      have := runGhost_runOps T ops initState []
      rw [hrun] at this
      simpa using this.symm
    obtain ⟨⟨e1, e2, e3, e4⟩, hsince⟩ :=
      GInv_run T ops initState [] [] s g GInv_init (fun _ => rfl) hrun
    refine ⟨hops, ?_, ?_, ?_⟩
    · intro u hu
      cases hutf : s.using_temp_file with
      | true =>
        rw [FlushUpload_spilled s hutf, e1] at hu
        exact (Option.some_inj.mp hu).symm
      | false =>
        cases hd : s.buffer_dirty with
        | true =>
          rw [FlushUpload_mem s hd hutf] at hu
          rw [← e1, e3 hutf, List.nil_append]
          exact (Option.some_inj.mp hu).symm
        | false =>
          rw [FlushUpload_clean s hd hutf] at hu
          exact absurd hu (by simp)
    · intro hutf
      exact hsince hutf
    · intro hutf
      exact FlushUpload_spilled s hutf
  · intro s hcond
    cases hu : s.using_temp_file with
    | true => rw [FileSyncOk_spilled s hu]; exact ⟨rfl, rfl⟩
    | false =>
      cases hd : s.buffer_dirty with
      | true => rw [FileSyncOk_mem s hd hu]; exact ⟨rfl, rfl⟩
      | false =>
        rcases hcond with hcond | hcond
        · rw [hd] at hcond; exact absurd hcond (by simp)
        · rw [hu] at hcond; exact absurd hcond (by simp)
  · intro s hu
    rw [FileSyncOk_spilled s hu]
    exact ⟨rfl, hu⟩

/-- Witness for C3 at a concrete input. -/
theorem claim_C3_witness : (FileSyncOk ⟨[5], true, true, [7], 1⟩).temp_file = [7, 5] := by
  have h := (claim_C3.2.2 ⟨[5], true, true, [7], 1⟩ rfl).1
  simpa using h

/-- C4 at the failing input: threshold 1 byte, a single 2-byte write
spills `[5, 6]` to the staging file and leaves the in-memory buffer
empty; the commit PUT answers 404, directory creation succeeds, the
retried PUT answers 201.  The code's retry PUT is issued from the
(cleared) in-memory buffer and therefore carries an empty body, not the
staged content `[5, 6]` — it does not carry the same materialized upload
content as the original attempt, contradicting the claim and the evident
intent of "retry the write after directory creation". -/
theorem claim_C4 :
    runOps 1 initState (seqWriteOps [[5, 6]]) = some ⟨[], true, true, [5, 6], 2⟩ ∧
    FlushBuffer ⟨[], true, true, [5, 6], 2⟩ 404 true 201 =
      ([UploadSource.fromTempFile [5, 6], UploadSource.fromMemory []],
        some ⟨[], false, true, [5, 6], 2⟩) ∧
    (FlushBuffer ⟨[], true, true, [5, 6], 2⟩ 404 true 201).1.map UploadSource.contents =
      [[5, 6], []] ∧
    FlushBuffer ⟨[], true, true, [5, 6], 2⟩ 404 false 201 =
      ([UploadSource.fromTempFile [5, 6]], none) := by decide

/-! ## Request executor with retry (httpfs_curl_client.cpp) -/

/-- The curl result codes distinguished by `IsRetryableCurlError`;
`otherError` stands for any other non-OK code. -/
inductive CurlCode
  | ok
  | couldntConnect
  | couldntResolveHost
  | couldntResolveProxy
  | operationTimedout
  | sendError
  | recvError
  | partialFile
  | gotNothing
  | otherError
  deriving DecidableEq, Repr

/-- `IsRetryableCurlError` (httpfs_curl_client.cpp): connection, timeout
and transmission errors are retryable; everything else (including OK)
is not. -/
def IsRetryableCurlError : CurlCode → Bool
  | .couldntConnect => true
  | .couldntResolveHost => true
  | .couldntResolveProxy => true
  | .operationTimedout => true
  | .sendError => true
  | .recvError => true
  | .partialFile => true
  | .gotNothing => true
  | _ => false

/-- `IsRetryableHTTPStatus`: 429, 500, 502, 503, 504. -/
def IsRetryableHTTPStatus (status : Nat) : Bool :=
  status == 429 || status == 500 || status == 502 || status == 503 || status == 504

/-- The outcome of one attempt: the curl result code and the HTTP
response code read back by `curl_easy_getinfo` (0 when none). -/
structure AttemptOutcome where
  res : CurlCode
  response_code : Nat
  deriving DecidableEq, Repr

/-- The success test of `ExecuteWithRetry`: `res == CURLE_OK &&
!IsRetryableHTTPStatus(response_code)`. -/
def attemptSucceeded (o : AttemptOutcome) : Bool :=
  o.res == CurlCode.ok && !IsRetryableHTTPStatus o.response_code

/-- The `should_retry` test of `ExecuteWithRetry`: a retryable curl error
or a retryable HTTP status. -/
def shouldRetry (o : AttemptOutcome) : Bool :=
  (o.res != CurlCode.ok && IsRetryableCurlError o.res) ||
    IsRetryableHTTPStatus o.response_code

/-- `HTTPFSCurlClient::ExecuteWithRetry`, its loop
`for (attempt = 0; attempt <= max_retries; attempt++)` unrolled on the
remaining retries (`fuel`, kept equal to `max_retries - attempt`, so the
`fuel = 0` case is exactly the loop's final iteration, where the
`attempt >= max_retries` test returns the outcome unconditionally).
`outcomes i` is the result of the i-th execution of the request.
Returns the final outcome together with the total number of attempts
performed; errors are returned as values, never raised. -/
def ExecuteWithRetryAux (outcomes : Nat → AttemptOutcome) (max_retries : Nat) :
    Nat → Nat → AttemptOutcome × Nat
  | 0, attempt => (outcomes attempt, attempt + 1)
  | fuel + 1, attempt =>
    let o := outcomes attempt
    if attemptSucceeded o then (o, attempt + 1)
    else if max_retries ≤ attempt then (o, attempt + 1)
    else if shouldRetry o then ExecuteWithRetryAux outcomes max_retries fuel (attempt + 1)
    else (o, attempt + 1)

/-- `ExecuteWithRetry` entry point: first attempt at index 0, with
`max_retries` retries remaining (`webdav_max_retries`, default 3). -/
def ExecuteWithRetry (max_retries : Nat) (outcomes : Nat → AttemptOutcome) :
    AttemptOutcome × Nat :=
  ExecuteWithRetryAux outcomes max_retries max_retries 0

lemma shouldRetry_not_succeeded (o : AttemptOutcome) (h : shouldRetry o = true) :
    attemptSucceeded o = false := by
  simp only [shouldRetry, Bool.or_eq_true, Bool.and_eq_true] at h
  simp only [attemptSucceeded, Bool.and_eq_false_iff]
  rcases h with ⟨hne, _⟩ | hs
  · left; simpa using hne
  · right; simp [hs]

lemma ExecuteWithRetryAux_all_retryable (O : Nat → AttemptOutcome) (mr : Nat)
    (hret : ∀ i, shouldRetry (O i) = true) :
    ∀ fuel attempt, attempt + fuel ≤ mr →
      ExecuteWithRetryAux O mr fuel attempt = (O (attempt + fuel), attempt + fuel + 1) := by
  intro fuel
  induction fuel with
  | zero => intro attempt _; simp [ExecuteWithRetryAux]
  | succ f ih =>
    intro attempt hle
    have hnotmax : ¬ mr ≤ attempt := by omega
    simp only [ExecuteWithRetryAux,
      shouldRetry_not_succeeded (O attempt) (hret attempt), Bool.false_eq_true,
      if_false, if_neg hnotmax, hret attempt, if_true]
    have := ih (attempt + 1) (by omega)
    rw [this]
    congr 2 <;> omega

/-- C5 counterexample: with the retry knob `webdav_max_retries` at its
default value 3 and every attempt a retryable outcome (HTTP 503), the
executor performs 4 attempts (the first try plus 3 retries), not 3. -/
theorem claim_C5_cx :
    (ExecuteWithRetry 3 (fun _ => ⟨CurlCode.ok, 503⟩)).2 = 4 ∧
    (ExecuteWithRetry 3 (fun _ => ⟨CurlCode.ok, 503⟩)).2 ≠ 3 := by decide

/-- C5 (amended): with `max_retries` configured (the `webdav_max_retries`
setting, default 3), all-retryable outcomes make the executor perform
exactly `max_retries + 1` attempts — the first try plus `max_retries`
retries, so 4 attempts at the default — and return the last failing
outcome as a value, never raising; a successful or terminal
(non-retryable) first outcome is returned immediately after exactly one
attempt. -/
theorem claim_C5 (mr : Nat) (O : Nat → AttemptOutcome) :
    ((∀ i, shouldRetry (O i) = true) → ExecuteWithRetry mr O = (O mr, mr + 1)) ∧
    (attemptSucceeded (O 0) = true → ExecuteWithRetry mr O = (O 0, 1)) ∧
    (shouldRetry (O 0) = false → ExecuteWithRetry mr O = (O 0, 1)) := by
  refine ⟨?_, ?_, ?_⟩
  · intro hret
    have := ExecuteWithRetryAux_all_retryable O mr hret mr 0 (by omega)
    simpa [ExecuteWithRetry] using this
  · intro hsucc
    cases mr with
    | zero => simp [ExecuteWithRetry, ExecuteWithRetryAux]
    | succ f => simp [ExecuteWithRetry, ExecuteWithRetryAux, hsucc]
  · intro hterm
    cases mr with
    | zero => simp [ExecuteWithRetry, ExecuteWithRetryAux]
    | succ f =>
      simp only [ExecuteWithRetry, ExecuteWithRetryAux, hterm, Bool.false_eq_true, if_false]
      by_cases hsucc : attemptSucceeded (O 0) = true
      · rw [if_pos hsucc]
      · rw [if_neg hsucc, if_neg (by omega)]

/-- Witness for C5 at a concrete input: three all-retryable outcomes. -/
theorem claim_C5_witness :
    ExecuteWithRetry 3 (fun _ => ⟨CurlCode.operationTimedout, 0⟩) =
      (⟨CurlCode.operationTimedout, 0⟩, 4) :=
  (claim_C5 3 (fun _ => ⟨CurlCode.operationTimedout, 0⟩)).1 (fun _ => by decide)

/-! ## Glob matching (webdavfs.cpp `Match` helper)

The segment-wise matcher `Match` is translated from webdavfs.cpp; the
single-segment matcher it delegates to is DuckDB's `Glob` from
`duckdb/function/scalar/string_common.hpp`, which is not part of this
repository's sources, so it is modelled from the spec below
(`GlobSegment`). -/

/-- Whether `c` lies in the inclusive character range `lo`..`hi`. -/
def charInRange (lo c hi : Char) : Bool :=
  decide (lo.toNat ≤ c.toNat ∧ c.toNat ≤ hi.toNat)

/-- Modelled from the spec: scanning of a `[...]` character class body
(after the opening bracket and optional negation) under standard
filename-glob semantics, accumulating whether `c` matched any item;
`none` when the class is unterminated. -/
def classScan (c : Char) : List Char → Bool → Option (Bool × List Char)
  | [], _ => none
  | ']' :: rest, acc => some (acc, rest)
  | x :: '-' :: y :: rest2, acc =>
    if y = ']' then classScan c ('-' :: y :: rest2) (acc || (c == x))
    else classScan c rest2 (acc || charInRange x c y)
  | x :: rest, acc => classScan c rest (acc || (c == x))

/-- Modelled from the spec: single-segment filename glob (`*` matches any
run of characters, `?` one character, `[...]`/`[!...]` a character
class), standing in for DuckDB's `Glob` which the repository calls but
does not contain.  `fuel` bounds the recursion; every call shrinks the
combined input length, so `length + length + 1` fuel always suffices. -/
def segGlobAux : Nat → List Char → List Char → Bool
  | 0, _, _ => false
  | _ + 1, s, [] => s.isEmpty
  | fuel + 1, s, '*' :: ps =>
    segGlobAux fuel s ps ||
      (match s with
       | [] => false
       | _ :: s2 => segGlobAux fuel s2 ('*' :: ps))
  | _ + 1, [], _ :: _ => false
  | fuel + 1, _ :: s2, '?' :: ps => segGlobAux fuel s2 ps
  | fuel + 1, c :: s2, '[' :: ps =>
    (match ps with
     | '!' :: body =>
       (match classScan c body false with
        | some (m, rest) => !m && segGlobAux fuel s2 rest
        | none => false)
     | body =>
       (match classScan c body false with
        | some (m, rest) => m && segGlobAux fuel s2 rest
        | none => false))
  | fuel + 1, c :: s2, pc :: ps => (c == pc) && segGlobAux fuel s2 ps

/-- Modelled from the spec: DuckDB's `Glob(key.data(), key.length(),
pattern.data(), pattern.length())` on one path segment. -/
def GlobSegment (s p : String) : Bool :=
  segGlobAux (s.length + p.length + 1) s.toList p.toList

/-- `Match` (webdavfs.cpp): segment-wise glob match of a split path
against a split pattern.  The C++ walks both vectors in lock-step; on a
`**` that is the last pattern segment it returns true (only reachable
with at least one path segment left, since the loop condition requires
`key != key_end`); on a `**` that is not last it tries the rest of the
pattern against every suffix of the remaining path positions; both
sequences must be fully consumed otherwise.  `fuel` strictly exceeds the
number of pattern segments consumed along any call chain. -/
def MatchFuel : Nat → List String → List String → Bool
  | 0, _, _ => false
  | _ + 1, [], [] => true
  | _ + 1, [], _ :: _ => false
  | _ + 1, _ :: _, [] => false
  | fuel + 1, k :: ks, p :: ps =>
    if p = "**" then
      if ps.isEmpty then true
      else (k :: ks).tails.any fun suf => !suf.isEmpty && MatchFuel fuel suf ps
    else GlobSegment k p && MatchFuel fuel ks ps

/-- `Match` entry point at adequate fuel. -/
def Match (key pattern : List String) : Bool :=
  MatchFuel (key.length + pattern.length + 1) key pattern

lemma list_any_congr {α : Type} (l : List α) (p q : α → Bool)
    (h : ∀ a ∈ l, p a = q a) : l.any p = l.any q := by
  induction l with
  | nil => rfl
  | cons x xs ih =>
    simp only [List.any_cons]
    rw [h x (by simp), ih (fun a ha => h a (by simp [ha]))]

lemma MatchFuel_adequate :
    ∀ f g key pattern, key.length + pattern.length < f →
      key.length + pattern.length < g →
      MatchFuel f key pattern = MatchFuel g key pattern := by
  intro f
  induction f with
  | zero => intro g key pattern hf _; omega
  | succ f1 ih =>
    intro g key pattern hf hg
    cases g with
    | zero => omega
    | succ g1 =>
      cases key with
      | nil =>
        cases pattern with
        | nil => rfl
        | cons p ps => rfl
      | cons k ks =>
        cases pattern with
        | nil => rfl
        | cons p ps =>
          simp only [MatchFuel]
          by_cases hpp : p = "**"
          · rw [if_pos hpp, if_pos hpp]
            by_cases hps : ps.isEmpty
            · rw [if_pos hps, if_pos hps]
            · rw [if_neg hps, if_neg hps]
              apply list_any_congr
              intro suf hsuf
              have hlen : suf.length ≤ ks.length + 1 := by
                have := (List.mem_tails suf (k :: ks)).mp hsuf
                simpa using this.length_le
              cases suf with
              | nil => rfl
              | cons x xs =>
                have h1 : (x :: xs).length + ps.length < f1 := by
                  simp only [List.length_cons] at hf hlen ⊢
                  omega
                have h2 : (x :: xs).length + ps.length < g1 := by
                  simp only [List.length_cons] at hg hlen ⊢
                  omega
                rw [ih g1 (x :: xs) ps h1 h2]
          · rw [if_neg hpp, if_neg hpp]
            have h1 : ks.length + ps.length < f1 := by
              simp only [List.length_cons] at hf; omega
            have h2 : ks.length + ps.length < g1 := by
              simp only [List.length_cons] at hg; omega
            rw [ih g1 ks ps h1 h2]

lemma Match_cons_lit (k p : String) (ks ps : List String) (hp : p ≠ "**") :
    Match (k :: ks) (p :: ps) = (GlobSegment k p && Match ks ps) := by
  simp only [Match, MatchFuel]
  rw [if_neg hp]
  congr 1
  exact MatchFuel_adequate _ _ ks ps (by simp; omega) (by omega)

lemma Match_cons_starstar (k : String) (ks ps : List String) (hps : ps ≠ []) :
    Match (k :: ks) ("**" :: ps) = (k :: ks).tails.any (fun suf => Match suf ps) := by
  simp only [Match, MatchFuel]
  rw [if_pos trivial, if_neg (by simpa using hps)]
  apply list_any_congr
  intro suf hsuf
  have hlen : suf.length ≤ ks.length + 1 := by
    have := (List.mem_tails suf (k :: ks)).mp hsuf
    simpa using this.length_le
  cases suf with
  | nil =>
    cases ps with
    | nil => exact absurd rfl hps
    | cons q qs => simp [Match, MatchFuel]
  | cons x xs =>
    have hne : ¬ (x :: xs).isEmpty = true := by simp
    simp only [List.isEmpty_cons, Bool.not_false, Bool.true_and]
    exact MatchFuel_adequate _ _ (x :: xs) ps
      (by simp only [List.length_cons] at hlen ⊢; omega) (by omega)

/-- C6 counterexample: a `**` that is the last pattern segment does not
match the empty remaining path suffix — `a/**` does not match the path
`a`, and the bare pattern `**` does not match an empty path — because
the C++ loop only reaches the `**` early-return while a path segment
remains, and otherwise requires both sequences fully consumed. -/
theorem claim_C6_cx : Match ["a"] ["a", "**"] = false ∧ Match [] ["**"] = false := by decide

/-- C6 (amended): the segment-wise matcher satisfies: a trailing `**`
matches any remaining path suffix with at least one segment but fails on
the empty suffix; a non-last `**` succeeds iff the rest of the pattern
matches some suffix of the remaining path; a non-`**` segment must match
exactly one path segment under single-segment wildcard semantics; and
otherwise a match requires both sequences fully consumed.  Consequently
`a/*.csv` matches `a/x.csv` but not `a/b/x.csv`, `a/**/x.csv` matches
both `a/x.csv` and `a/b/c/x.csv`, and `**` matches every nonempty path. -/
theorem claim_C6 :
    (∀ (k : String) (ks : List String), Match (k :: ks) ["**"] = true) ∧
    (∀ ps : List String, Match [] ps = ps.isEmpty) ∧
    (∀ (k : String) (ks ps : List String), ps ≠ [] →
       Match (k :: ks) ("**" :: ps) = (k :: ks).tails.any (fun suf => Match suf ps)) ∧
    (∀ (k p : String) (ks ps : List String), p ≠ "**" →
       Match (k :: ks) (p :: ps) = (GlobSegment k p && Match ks ps)) ∧
    (∀ (k : String) (ks : List String), Match (k :: ks) [] = false) ∧
    (Match ["a", "x.csv"] ["a", "*.csv"] = true ∧
     Match ["a", "b", "x.csv"] ["a", "*.csv"] = false ∧
     Match ["a", "x.csv"] ["a", "**", "x.csv"] = true ∧
     Match ["a", "b", "c", "x.csv"] ["a", "**", "x.csv"] = true ∧
     Match ["a"] ["**"] = true ∧ Match ["a", "b"] ["**"] = true) := by
  refine ⟨?_, ?_, Match_cons_starstar, Match_cons_lit, ?_, ?_⟩
  · intro k ks
    simp [Match, MatchFuel]
  · intro ps
    cases ps with
    | nil => rfl
    | cons p ps1 => rfl
  · intro k ks
    rfl
  · exact ⟨by decide, by decide, by decide, by decide, by decide, by decide⟩

/-- Witness for C6 at a concrete input. -/
theorem claim_C6_witness :
    Match ["b", "x.csv"] ["**", "x.csv"] =
      ["b", "x.csv"].tails.any (fun suf => Match suf ["x.csv"]) :=
  claim_C6.2.2.1 "b" ["x.csv"] ["x.csv"] (by decide)

/-! ## Glob hierarchy resolution (WebDAVFileSystem::Glob) -/

/-- The characters `WebDAVFileSystem::Glob` treats as wildcard triggers:
`path.find_first_of("*[\\")` — star, opening bracket and backslash.
`?` is not among them. -/
def globWildcardChars : List Char := ['*', '[', '\\']

/-- `path.find_first_of("*[\\")`: index of the first wildcard trigger. -/
def findFirstWildcard : List Char → Option Nat
  | [] => none
  | c :: rest =>
    if c ∈ globWildcardChars then some 0
    else (findFirstWildcard rest).map (· + 1)

/-- Index of the last `'/'` of a character list, if any. -/
def lastSlashIn : List Char → Option Nat
  | [] => none
  | c :: rest =>
    match lastSlashIn rest with
    | some j => some (j + 1)
    | none => if c = '/' then some 0 else none

/-- `path.rfind('/', i)`: the largest index `j ≤ i` holding a slash. -/
def lastSlashLe (path : List Char) (i : Nat) : Option Nat :=
  lastSlashIn (path.take (i + 1))

/-- The resolution decision of `WebDAVFileSystem::Glob` on the parsed URL
path: `none` means no wildcard trigger was found and the pattern is
returned as-is, without any listing; `some pre` means a PROPFIND listing
is issued at `pre`, the portion of the path up to and including the last
slash before the first wildcard trigger (`"/"` when there is no such
slash). -/
def GlobPlan (path : List Char) : Option (List Char) :=
  match findFirstWildcard path with
  | none => none
  | some i =>
    match lastSlashLe path i with
    | some j => some (path.take (j + 1))
    | none => some ['/']

lemma getElem?_take_lt {α : Type} (l : List α) {n m : Nat} (h : m < n) :
    (l.take n)[m]? = l[m]? := by
  rw [List.getElem?_take, if_pos h]

lemma findFirstWildcard_none_iff :
    ∀ path : List Char, findFirstWildcard path = none ↔ ∀ c ∈ path, c ∉ globWildcardChars := by
  intro path
  induction path with
  | nil => simp [findFirstWildcard]
  | cons c rest ih =>
    by_cases hc : c ∈ globWildcardChars
    · simp [findFirstWildcard, hc]
    · simp only [findFirstWildcard, if_neg hc, Option.map_eq_none', ih, List.mem_cons]
      constructor
      · intro h x hx
        rcases hx with hx | hx
        · rw [hx]; exact hc
        · exact h x hx
      · intro h x hx
        exact h x (Or.inr hx)

lemma findFirstWildcard_some_spec :
    ∀ (path : List Char) (i : Nat), findFirstWildcard path = some i →
      (∃ c, path[i]? = some c ∧ c ∈ globWildcardChars) ∧
      ∀ m, m < i → ∀ c, path[m]? = some c → c ∉ globWildcardChars := by
  intro path
  induction path with
  | nil => intro i h; simp [findFirstWildcard] at h
  | cons c rest ih =>
    intro i h
    by_cases hc : c ∈ globWildcardChars
    · simp only [findFirstWildcard, if_pos hc, Option.some_inj] at h
      subst h
      exact ⟨⟨c, by simp, hc⟩, fun m hm => by omega⟩
    · simp only [findFirstWildcard, if_neg hc, Option.map_eq_some'] at h
      obtain ⟨i1, hrec, hi⟩ := h
      obtain ⟨⟨w, hw, hwmem⟩, hmin⟩ := ih i1 hrec
      subst hi
      refine ⟨⟨w, by simpa using hw, hwmem⟩, ?_⟩
      intro m hm d hd
      cases m with
      | zero =>
        simp only [List.getElem?_cons_zero, Option.some_inj] at hd
        rw [← hd]; exact hc
      | succ m1 =>
        simp only [List.getElem?_cons_succ] at hd
        exact hmin m1 (by omega) d hd

lemma lastSlashIn_none :
    ∀ l : List Char, lastSlashIn l = none → ∀ c ∈ l, c ≠ '/' := by
  intro l
  induction l with
  | nil => intro _ c hc; simp at hc
  | cons c rest ih =>
    intro h d hd
    simp only [lastSlashIn] at h
    cases hrec : lastSlashIn rest with
    | some j => rw [hrec] at h; exact absurd h (by simp)
    | none =>
      rw [hrec] at h
      by_cases hc : c = '/'
      · rw [if_pos hc] at h; exact absurd h (by simp)
      · rw [if_neg hc] at h
        rcases List.mem_cons.mp hd with hd1 | hd1
        · rw [hd1]; exact hc
        · exact ih hrec d hd1

lemma lastSlashIn_some :
    ∀ (l : List Char) (j : Nat), lastSlashIn l = some j →
      l[j]? = some '/' ∧ ∀ m, j < m → ∀ c, l[m]? = some c → c ≠ '/' := by
  intro l
  induction l with
  | nil => intro j h; simp [lastSlashIn] at h
  | cons c rest ih =>
    intro j h
    simp only [lastSlashIn] at h
    cases hrec : lastSlashIn rest with
    | some j1 =>
      rw [hrec] at h
      simp only [Option.some_inj] at h
      subst h
      obtain ⟨h1, h2⟩ := ih j1 hrec
      refine ⟨by simpa using h1, ?_⟩
      intro m hm d hd
      cases m with
      | zero => omega
      | succ m1 =>
        simp only [List.getElem?_cons_succ] at hd
        exact h2 m1 (by omega) d hd
    | none =>
      rw [hrec] at h
      by_cases hc : c = '/'
      · rw [if_pos hc] at h
        simp only [Option.some_inj] at h
        subst h
        refine ⟨by simp [hc], ?_⟩
        intro m hm d hd
        cases m with
        | zero => omega
        | succ m1 =>
          simp only [List.getElem?_cons_succ] at hd
          exact lastSlashIn_none rest hrec d (List.getElem?_mem hd)
      · rw [if_neg hc] at h
        exact absurd h (by simp)

/-- C7 counterexample: the pattern path `/a?.csv` contains the supported
single-segment wildcard `?` (which the segment matcher honours: `a?.csv`
matches both `ax.csv` and `ay.csv`), yet `Glob` finds no wildcard
trigger in it and returns the pattern as-is, with no listing issued. -/
theorem claim_C7_cx :
    GlobPlan "/a?.csv".toList = none ∧
    GlobSegment "ax.csv" "a?.csv" = true ∧
    GlobSegment "ay.csv" "a?.csv" = true := by decide

/-- C7 (amended): hierarchy resolution scans the parsed path for the
first occurrence of `*`, `[` or `\` (not `?`): when none occurs the
pattern is returned as-is without listing — so a pattern whose only
wildcard is `?` is treated as a literal path — and when one occurs at
index `i`, the listing is issued at the prefix up to and including the
last slash at an index `j ≤ i` (the root `/` if there is none), which is
the longest slash-terminated prefix containing no wildcard trigger:
every character before `i` is trigger-free, `j` is the last slash at or
before `i`, and the prefix itself is trigger-free. -/
theorem claim_C7 :
    (∀ path : List Char, GlobPlan path = none ↔ ∀ c ∈ path, c ∉ globWildcardChars) ∧
    (∀ (path : List Char) (i : Nat), findFirstWildcard path = some i →
       (∃ c, path[i]? = some c ∧ c ∈ globWildcardChars) ∧
       (∀ m, m < i → ∀ c, path[m]? = some c → c ∉ globWildcardChars)) ∧
    (∀ (path : List Char) (i j : Nat), findFirstWildcard path = some i →
       lastSlashLe path i = some j →
       GlobPlan path = some (path.take (j + 1)) ∧
       path[j]? = some '/' ∧ j < i ∧
       (∀ m, j < m → m ≤ i → path[m]? ≠ some '/') ∧
       (∀ c ∈ path.take (j + 1), c ∉ globWildcardChars)) ∧
    (∀ (path : List Char) (i : Nat), findFirstWildcard path = some i →
       lastSlashLe path i = none → GlobPlan path = some ['/']) ∧
    (GlobPlan "/data/fi*le.csv".toList = some "/data/".toList ∧
     GlobPlan "/a/b.csv".toList = none) := by
  refine ⟨?_, findFirstWildcard_some_spec, ?_, ?_, by decide, by decide⟩
  · intro path
    cases hf : findFirstWildcard path with
    | none => simpa [GlobPlan, hf] using (findFirstWildcard_none_iff path).mp hf
    | some i =>
      obtain ⟨⟨c, hc, hcmem⟩, _⟩ := findFirstWildcard_some_spec path i hf
      constructor
      · intro h
        cases hs : lastSlashLe path i with
        | some j => simp [GlobPlan, hf, hs] at h
        | none => simp [GlobPlan, hf, hs] at h
      · intro h
        exact absurd hcmem (h c (List.getElem?_mem hc))
  · intro path i j hf hs
    obtain ⟨⟨c, hc, hcmem⟩, hmin⟩ := findFirstWildcard_some_spec path i hf
    obtain ⟨hj, hmax⟩ := lastSlashIn_some _ j hs
    have hilen : i < path.length := by
      obtain ⟨h1, _⟩ := List.getElem?_eq_some.mp hc
      exact h1
    have hjlt : j < i + 1 := by
      obtain ⟨h1, _⟩ := List.getElem?_eq_some.mp hj
      have hlen : (path.take (i + 1)).length ≤ i + 1 := by
        simp [List.length_take]
      omega
    have hjpath : path[j]? = some '/' := by
      rw [← getElem?_take_lt path hjlt]
      exact hj
    have hji : j < i := by
      rcases Nat.lt_or_ge j i with h | h
      · exact h
      · have hji2 : j = i := by omega
        subst hji2
        rw [hjpath] at hc
        simp only [Option.some_inj] at hc
        subst hc
        simp [globWildcardChars] at hcmem
    refine ⟨by simp [GlobPlan, hf, hs], hjpath, hji, ?_, ?_⟩
    · intro m hm1 hm2 hmeq
      have hmlt : m < i + 1 := by omega
      have hms : (path.take (i + 1))[m]? = some '/' := by
        rw [getElem?_take_lt path hmlt]
        exact hmeq
      exact hmax m hm1 '/' hms rfl
    · intro d hd
      obtain ⟨m, hmlt, hm⟩ := List.getElem_of_mem hd
      have hmj : m < j + 1 := by
        have htk : (path.take (j + 1)).length ≤ j + 1 := by simp [List.length_take]
        omega
      have hdm : path[m]? = some d := by
        rw [← getElem?_take_lt path hmj]
        exact List.getElem?_eq_some.mpr ⟨hmlt, hm⟩
      exact hmin m (by omega) d hdm
  · intro path i hf hs
    simp [GlobPlan, hf, lastSlashLe] at hs ⊢
    rw [hs]

/-- Witness for C7 at a concrete input. -/
theorem claim_C7_witness :
    GlobPlan "/data/fi*le.csv".toList = some "/data/".toList ∧
    GlobPlan "/a/b.csv".toList = none :=
  claim_C7.2.2.2.2

/-! ## PROPFIND multi-status body parsing (ParsePropfindResponse) -/

/-- `std::string::find(needle, start)` on character lists: the least
index `i ≥ start` at which `needle` occurs; `none` when there is no
occurrence, in particular whenever `start` exceeds the length (as when
searching from `npos`).  `fuel` is the number of positions left to try. -/
def strFindAux (hay needle : List Char) : Nat → Nat → Option Nat
  | 0, _ => none
  | fuel + 1, start =>
    if needle.isPrefixOf (hay.drop start) then some start
    else strFindAux hay needle fuel (start + 1)

/-- `std::string::find(needle, start)`. -/
def strFind (hay needle : List Char) (start : Nat) : Option Nat :=
  strFindAux hay needle (hay.length + 1 - start) start

/-- Value of a hexadecimal digit character. -/
def hexDigitVal (c : Char) : Option Nat :=
  if '0' ≤ c ∧ c ≤ '9' then some (c.toNat - '0'.toNat)
  else if 'a' ≤ c ∧ c ≤ 'f' then some (c.toNat - 'a'.toNat + 10)
  else if 'A' ≤ c ∧ c ≤ 'F' then some (c.toNat - 'A'.toNat + 10)
  else none

/-- `std::stoi(hex, nullptr, 16)` on the two-character escape slice:
parses the longest leading run of hex digits (a valid pair gives
`16*hi + lo`, a single leading digit gives just its value) and throws
(`none`) when the first character is not a hex digit.  stoi's
leading-whitespace and sign handling is not modelled. -/
def stoiHex2 (c1 c2 : Char) : Option Nat :=
  match hexDigitVal c1, hexDigitVal c2 with
  | some a, some b => some (16 * a + b)
  | some a, none => some a
  | none, _ => none

/-- The URL-decoding loop of `ParsePropfindResponse`: a `%` followed by
at least two characters is decoded through `std::stoi(hex, 16)` (whose
exception propagates as `none`); a `%` with fewer than two characters
after it, and every other character, is copied literally
(`href[i] == '%' && i + 2 < href.length()`). -/
def PercentDecode : List Char → Option (List Char)
  | [] => some []
  | '%' :: c1 :: c2 :: rest =>
    (match stoiHex2 c1 c2 with
     | none => none
     | some v => (PercentDecode rest).map (fun d => Char.ofNat v :: d))
  | c :: rest => (PercentDecode rest).map (fun d => c :: d)

def dHrefOpen : List Char := "<D:href>".toList

def dHrefClose : List Char := "</D:href>".toList

def hrefOpen : List Char := "<href>".toList

def hrefClose : List Char := "</href>".toList

/-- The scanning loop of `ParsePropfindResponse` (webdavfs.cpp).  The
C++ loop condition is
`(pos = find("<D:href>", pos)) != npos || (pos = find("<href>", pos)) != npos`:
when the first find fails, `pos` has already been assigned `npos`, so
the second find searches from `npos` and never succeeds — bodies using
only the plain `<href>` spelling are never matched (the
`substr(pos, 8) == "<D:href>"` tag dispatch is kept for fidelity, but
its plain branch is unreachable).  Captured values are percent-decoded
(`none` models the `std::stoi` exception escaping) and entries whose
decoded value ends with `/` — the collection entries, including the
listed directory itself — are skipped, not returned.  `fuel` exceeds the
number of iterations, as the scan position strictly advances. -/
def ParsePropfindAux (xml : List Char) :
    Nat → Nat → List (List Char) → Option (List (List Char))
  | 0, _, acc => some acc.reverse
  | fuel + 1, pos, acc =>
    match
      (match strFind xml dHrefOpen pos with
       | some p => some p
       | none => strFind xml hrefOpen (xml.length + 1)) with
    | none => some acc.reverse
    | some p =>
      let tagD := dHrefOpen.isPrefixOf (xml.drop p)
      let tagOpen := if tagD then dHrefOpen else hrefOpen
      let tagClose := if tagD then dHrefClose else hrefClose
      let start := p + tagOpen.length
      match strFind xml tagClose start with
      | none => some acc.reverse
      | some e =>
        match PercentDecode ((xml.drop start).take (e - start)) with
        | none => none
        | some decoded =>
          ParsePropfindAux xml fuel (e + tagClose.length)
            (if decoded.getLast? = some '/' then acc else decoded :: acc)

/-- `ParsePropfindResponse` (webdavfs.cpp): extracts the non-collection
file entries of a PROPFIND multi-status body, percent-decoded. -/
def ParsePropfindResponse (xml : List Char) : Option (List (List Char)) :=
  ParsePropfindAux xml (xml.length + 1) 0 []

lemma ParsePropfindAux_no_collections (xml : List Char) :
    ∀ (fuel pos : Nat) (acc res : List (List Char)),
      (∀ e ∈ acc, e.getLast? ≠ some '/') →
      ParsePropfindAux xml fuel pos acc = some res →
      ∀ e ∈ res, e.getLast? ≠ some '/' := by
  intro fuel
  induction fuel with
  | zero =>
    intro pos acc res hacc h
    simp only [ParsePropfindAux] at h
    cases h
    intro e he
    exact hacc e (List.mem_reverse.mp he)
  | succ f ih =>
    intro pos acc res hacc h
    simp only [ParsePropfindAux] at h
    split at h
    · cases h
      intro e he
      exact hacc e (List.mem_reverse.mp he)
    · split at h
      · cases h
        intro e he
        exact hacc e (List.mem_reverse.mp he)
      · split at h
        · exact absurd h (by simp)
        · rename_i decoded hdec
          by_cases hlast : decoded.getLast? = some '/'
          · rw [if_pos hlast] at h
            exact ih _ acc res hacc h
          · rw [if_neg hlast] at h
            refine ih _ _ res ?_ h
            intro e he
            rcases List.mem_cons.mp he with he1 | he1
            · rw [he1]; exact hlast
            · exact hacc e he1

/-- C8 counterexample: a body with two reference tags, `/dir%20a/`
(ending in `/`) and `/file%20b.csv` (not), parses into exactly ONE
entry — the decoded non-collection one — because the parser skips every
entry whose decoded value ends with the separator instead of returning
it as a collection entry; and a body using only the non-namespaced
`<href>` spelling parses to nothing, because after the failed
`find("<D:href>")` the position is `npos` and the second find never
succeeds. -/
theorem claim_C8_cx :
    ParsePropfindResponse
        "<D:href>/dir%20a/</D:href><D:href>/file%20b.csv</D:href>".toList =
      some ["/file b.csv".toList] ∧
    ParsePropfindResponse "<href>/a/</href><href>/b.csv</href>".toList =
      some ([] : List (List Char)) := by decide

/-- C8 (amended): the parser scans for the namespace-prefixed reference
tag only (the non-prefixed spelling is tested but unreachable, since it
is searched from `npos` after the prefixed search fails), percent-decodes
each captured value (e.g. `%20` to a space), and uses the trailing-
separator test to FILTER OUT collection entries: the result never
contains an entry whose decoded value ends with `/`, and a body with one
collection and one non-collection reference parses into exactly one
entry, the decoded non-collection one. -/
theorem claim_C8 :
    (∀ xml res, ParsePropfindResponse xml = some res →
       ∀ e ∈ res, e.getLast? ≠ some '/') ∧
    (ParsePropfindResponse
         "<D:href>/dir%20a/</D:href><D:href>/file%20b.csv</D:href>".toList =
       some ["/file b.csv".toList] ∧
     PercentDecode "/file%20b.csv".toList = some "/file b.csv".toList ∧
     PercentDecode "/dir%20a/".toList = some "/dir a/".toList ∧
     ParsePropfindResponse "<href>/a/</href><href>/b.csv</href>".toList =
       some ([] : List (List Char))) := by
  constructor
  · intro xml res h
    exact ParsePropfindAux_no_collections xml _ _ [] res (by simp) h
  · exact ⟨by decide, by decide, by decide, by decide⟩

/-- Witness for C8 at a concrete input. -/
theorem claim_C8_witness :
    ∀ e ∈ ["/file b.csv".toList], e.getLast? ≠ some '/' :=
  claim_C8.1 "<D:href>/file%20b.csv</D:href>".toList ["/file b.csv".toList] (by decide)

/-! ## Directory creation (CreateDirectory / CreateDirectoryRecursive) -/

/-- `std::string::find(needle) != npos` on strings. -/
def strContains (hay needle : String) : Bool :=
  (strFind hay.toList needle.toList 0).isSome

/-- MKCOL statuses `CreateDirectory` treats as success: 201, 200, 204. -/
def mkcolSuccess (s : Nat) : Bool :=
  s == 201 || s == 200 || s == 204

/-- The URL built for the directory at segments `parts`:
`protocol_prefix + accumulated_path`, with one `/` before each segment. -/
def joinPath (protoPre : String) (parts : List String) : String :=
  protoPre ++ String.join (parts.map (fun p => "/" ++ p))

/-- Outcome of a directory-creation call: success, or an IOException
carrying its message. -/
inductive DirResult
  | ok
  | err (msg : String)
  deriving DecidableEq, Repr

/-- The storage-full IOException message of `CreateDirectory` (507). -/
def storageFullMsg (directory : String) : String :=
  "Failed to create directory " ++ directory ++
    ": Storage is full. The WebDAV server has insufficient storage space available. Free up space or resize your storage."

/-- The generic IOException message of `CreateDirectory`. -/
def httpErrorMsg (directory : String) (status : Nat) : String :=
  "Failed to create directory " ++ directory ++ ": HTTP " ++ toString status

/-- One level of the `CreateDirectoryRecursive` loop: run the per-level
creation inside try/catch; an IOException is swallowed unless its
message contains "Storage is full" or "insufficient storage", in which
case it is re-thrown, aborting the chain.  `abort = some r` models an
exception already propagating. -/
def dirLevelStep (create : List String → DirResult) (abort : Option DirResult)
    (pre : List String) : Option DirResult :=
  match abort with
  | some r => some r
  | none =>
    match create pre with
    | DirResult.ok => none
    | DirResult.err msg =>
      if (strContains msg "Storage is full" || strContains msg "insufficient storage") = true then
        some (DirResult.err msg)
      else none

/-- The prefixes of the segment list, shortest to longest (the
accumulated-path loop of `CreateDirectoryRecursive`). -/
def segPrefixes (parts : List String) : List (List String) :=
  (List.range parts.length).map (fun i => parts.take (i + 1))

/-- Combined model of `WebDAVFileSystem::CreateDirectory`
(`phase = false`) and `CreateDirectoryRecursive` (`phase = true`) from
webdavfs.cpp.  `S` gives the MKCOL status the server answers for the
directory with the given segments (responses are per-path constants, so
the retried MKCOL reads `S parts` again); `protoPre` is the
reconstructed protocol prefix (scheme, host).

CreateDirectory: 201/200/204 succeed; 507 throws the storage-full
error; on 404/409, when the URL has a parent below the host (at least
two path segments — the `last_slash > first_slash_after_protocol`
guard), the parent chain is created via the recursive phase (only a
re-thrown quota error can escape it, and then propagates) and the MKCOL
is retried once; on the final status 201/200/204 succeed, 507 throws
the storage-full error, 405 means "already exists" and succeeds, and
anything else throws the generic HTTP error.

CreateDirectoryRecursive: run every prefix, shortest to longest,
through `dirLevelStep`; the result is the first re-thrown error, or ok.

`fuel` is structural; `2 * parts.length + 2` always suffices because
every nested call strictly shrinks the segment list or switches phase. -/
def dirRun (S : List String → Nat) (protoPre : String) :
    Nat → Bool → List String → DirResult
  | 0, _, _ => DirResult.ok
  | _fuel + 1, false, parts =>
    let s1 := S parts
    if mkcolSuccess s1 then DirResult.ok
    else if s1 == 507 then DirResult.err (storageFullMsg (joinPath protoPre parts))
    else
      let retried : DirResult ⊕ Nat :=
        if (s1 = 404 ∨ s1 = 409) ∧ 2 ≤ parts.length then
          match dirRun S protoPre _fuel true parts.dropLast with
          | DirResult.err msg => Sum.inl (DirResult.err msg)
          | DirResult.ok => Sum.inr (S parts)
        else Sum.inr s1
      match retried with
      | Sum.inl r => r
      | Sum.inr s2 =>
        if mkcolSuccess s2 then DirResult.ok
        else if s2 == 507 then DirResult.err (storageFullMsg (joinPath protoPre parts))
        else if s2 ≠ 405 then DirResult.err (httpErrorMsg (joinPath protoPre parts) s2)
        else DirResult.ok
  | _fuel + 1, true, parts =>
    match (segPrefixes parts).foldl
        (dirLevelStep (fun pre => dirRun S protoPre _fuel false pre)) none with
    | some r => r
    | none => DirResult.ok

/-- `CreateDirectory` entry point at adequate fuel. -/
def CreateDirectory (S : List String → Nat) (protoPre : String)
    (parts : List String) : DirResult :=
  dirRun S protoPre (2 * parts.length + 2) false parts

/-- `CreateDirectoryRecursive` entry point at adequate fuel. -/
def CreateDirectoryRecursive (S : List String → Nat) (protoPre : String)
    (parts : List String) : DirResult :=
  dirRun S protoPre (2 * parts.length + 2) true parts

lemma strFindAux_isSome_of_occ (hay needle : List Char) :
    ∀ (fuel start i : Nat), start ≤ i → i < start + fuel →
      needle.isPrefixOf (hay.drop i) = true →
      (strFindAux hay needle fuel start).isSome = true := by
  intro fuel
  induction fuel with
  | zero => intro start i h1 h2 _; omega
  | succ f ih =>
    intro start i h1 h2 hp
    simp only [strFindAux]
    by_cases hs : needle.isPrefixOf (hay.drop start) = true
    · rw [if_pos hs]; rfl
    · rw [if_neg hs]
      have hlt : start + 1 ≤ i := by
        rcases Nat.eq_or_lt_of_le h1 with he | hl
        · subst he; exact absurd hp hs
        · omega
      exact ih (start + 1) i hlt (by omega) hp

lemma drop_append_left {α : Type} (l1 l2 : List α) (n : Nat) :
    (l1 ++ l2).drop (l1.length + n) = l2.drop n := by
  rw [← List.drop_drop, List.drop_left]

lemma strContains_storageFullMsg (dir : String) :
    strContains (storageFullMsg dir) "Storage is full" = true := by
  have hdata : (storageFullMsg dir).toList =
      ("Failed to create directory ".toList ++ dir.toList) ++
        ": Storage is full. The WebDAV server has insufficient storage space available. Free up space or resize your storage.".toList := by
    simp [storageFullMsg, String.toList, String.data_append]
  unfold strContains strFind
  rw [hdata, Nat.sub_zero]
  apply strFindAux_isSome_of_occ _ _ _ 0
      (("Failed to create directory ".toList ++ dir.toList).length + 2)
      (by omega) ?_ ?_
  · have hs : 2 <
        ": Storage is full. The WebDAV server has insufficient storage space available. Free up space or resize your storage.".toList.length := by
      decide
    simp only [List.length_append]
    omega
  · rw [drop_append_left]
    decide

lemma foldl_dirLevelStep_some (create : List String → DirResult) :
    ∀ (l : List (List String)) (r : DirResult),
      l.foldl (dirLevelStep create) (some r) = some r := by
  intro l
  induction l with
  | nil => intro r; rfl
  | cons p rest ih => intro r; exact ih r

lemma foldl_dirLevelStep_none (create : List String → DirResult) :
    ∀ l : List (List String),
      (∀ p ∈ l, ∀ msg, create p = DirResult.err msg →
        (strContains msg "Storage is full" || strContains msg "insufficient storage") = false) →
      l.foldl (dirLevelStep create) none = none := by
  intro l
  induction l with
  | nil => intro _; rfl
  | cons p rest ih =>
    intro h
    have hstep : dirLevelStep create none p = none := by
      cases hc : create p with
      | ok => simp [dirLevelStep, hc]
      | err msg => simp [dirLevelStep, hc, h p (by simp) msg hc]
    rw [List.foldl_cons, hstep]
    exact ih (fun q hq msg hcq => h q (by simp [hq]) msg hcq)

/-- C9 counterexample: a directory path whose own text contains
"Storage is full".  The first level answers 403, producing the generic
(non-quota) HTTP error; because the path is embedded in the message, the
message-substring test re-throws it and the chain aborts — a per-level
error other than quota exhaustion is not swallowed. -/
theorem claim_C9_cx :
    CreateDirectoryRecursive
        (fun parts => if parts = ["Storage is full"] then 403 else 201)
        "webdavs://host" ["Storage is full", "x"] =
      DirResult.err (httpErrorMsg "webdavs://host/Storage is full" 403) ∧
    httpErrorMsg "webdavs://host/Storage is full" 403 ≠
      storageFullMsg "webdavs://host/Storage is full" ∧
    CreateDirectoryRecursive
        (fun parts => if parts = ["d"] then 403 else 201)
        "webdavs://host" ["d", "x"] = DirResult.ok := by decide

/-- C9 (amended): for a single directory-creation request, statuses
201/200/204 succeed, 405 (already exists) also succeeds without error,
and 507 always throws the distinct storage-full (quota) error, whose
message always carries the "Storage is full" marker.  During recursive
creation of the ancestor chain (shortest prefix to longest), a per-level
error is swallowed and the chain continues if and only if its message
contains neither "Storage is full" nor "insufficient storage"; an error
carrying a marker — every quota error does, but also a non-quota error
whose message happens to embed the marker through the directory path —
is re-thrown immediately and becomes the result. -/
theorem claim_C9 :
    (∀ (S : List String → Nat) (pre : String) (parts : List String),
       mkcolSuccess (S parts) = true → CreateDirectory S pre parts = DirResult.ok) ∧
    (∀ (S : List String → Nat) (pre : String) (parts : List String),
       S parts = 405 → CreateDirectory S pre parts = DirResult.ok) ∧
    (∀ (S : List String → Nat) (pre : String) (parts : List String),
       S parts = 507 →
       CreateDirectory S pre parts = DirResult.err (storageFullMsg (joinPath pre parts))) ∧
    (∀ dir, strContains (storageFullMsg dir) "Storage is full" = true) ∧
    (∀ (S : List String → Nat) (pre : String) (parts : List String) (f : Nat),
       (∀ p ∈ segPrefixes parts, ∀ msg, dirRun S pre f false p = DirResult.err msg →
          (strContains msg "Storage is full" || strContains msg "insufficient storage") = false) →
       dirRun S pre (f + 1) true parts = DirResult.ok) ∧
    (∀ (S : List String → Nat) (pre : String) (parts : List String) (f : Nat)
       (l1 : List (List String)) (p : List String) (l2 : List (List String)) (msg : String),
       segPrefixes parts = l1 ++ p :: l2 →
       (∀ q ∈ l1, ∀ m2, dirRun S pre f false q = DirResult.err m2 →
          (strContains m2 "Storage is full" || strContains m2 "insufficient storage") = false) →
       dirRun S pre f false p = DirResult.err msg →
       (strContains msg "Storage is full" || strContains msg "insufficient storage") = true →
       dirRun S pre (f + 1) true parts = DirResult.err msg) := by
  refine ⟨?_, ?_, ?_, strContains_storageFullMsg, ?_, ?_⟩
  · intro S pre parts h
    unfold CreateDirectory
    rw [show 2 * parts.length + 2 = 2 * parts.length + 1 + 1 from rfl]
    simp [dirRun, h]
  · intro S pre parts h
    unfold CreateDirectory
    rw [show 2 * parts.length + 2 = 2 * parts.length + 1 + 1 from rfl]
    simp [dirRun, h, mkcolSuccess]
  · intro S pre parts h
    unfold CreateDirectory
    rw [show 2 * parts.length + 2 = 2 * parts.length + 1 + 1 from rfl]
    simp [dirRun, h, mkcolSuccess]
  · intro S pre parts f h
    rw [show f + 1 = f + 1 from rfl]
    simp only [dirRun]
    rw [foldl_dirLevelStep_none _ (segPrefixes parts) h]
  · intro S pre parts f l1 p l2 msg hsplit h1 hp hflag
    simp only [dirRun]
    rw [hsplit, List.foldl_append, foldl_dirLevelStep_none _ l1 h1, List.foldl_cons]
    have hstep : dirLevelStep (fun q => dirRun S pre f false q) none p =
        some (DirResult.err msg) := by
      simp only [dirLevelStep, hp]
      rw [if_pos hflag]
    rw [hstep, foldl_dirLevelStep_some]

/-- Witness for C9 at concrete inputs. -/
theorem claim_C9_witness :
    CreateDirectory (fun _ => 405) "webdavs://host" ["a"] = DirResult.ok ∧
    CreateDirectory (fun _ => 507) "webdavs://host" ["a"] =
      DirResult.err (storageFullMsg (joinPath "webdavs://host" ["a"])) :=
  ⟨claim_C9.2.1 (fun _ => 405) "webdavs://host" ["a"] rfl,
   claim_C9.2.2.1 (fun _ => 507) "webdavs://host" ["a"] rfl⟩

/-! ## Write-handle construction flags (C10) -/

/-- The open-flag queries the `WebDAVFileHandle` constructor consults. -/
structure FileOpenFlags where
  openForReading : Bool
  openForWriting : Bool
  openForAppending : Bool
  deriving DecidableEq, Repr

/-- A successfully constructed handle, recording its flags. -/
structure WebDAVFileHandle where
  flags : FileOpenFlags
  deriving DecidableEq, Repr

/-- The `WebDAVFileHandle` constructor (include/webdavfs.hpp): after the
member initializers it throws NotImplementedException (`none`) when the
flags request both reading and writing, or request append mode; it is
pure — no remote operation is attempted (network I/O only happens later,
in `Initialize`). -/
def mkWebDAVFileHandle (flags : FileOpenFlags) : Option WebDAVFileHandle :=
  if flags.openForReading && flags.openForWriting then none
  else if flags.openForAppending then none
  else some ⟨flags⟩

/-- C10: constructing a handle with read+write flags, or with append,
always fails with the not-implemented error before any remote operation;
every successfully constructed handle has flags that are not
read-and-write and not append — it is exclusively read-only or
exclusively write-only. -/
theorem claim_C10 :
    (∀ f : FileOpenFlags,
       (f.openForReading && f.openForWriting) = true ∨ f.openForAppending = true →
       mkWebDAVFileHandle f = none) ∧
    (∀ (f : FileOpenFlags) (h : WebDAVFileHandle), mkWebDAVFileHandle f = some h →
       h.flags = f ∧ ¬(f.openForReading = true ∧ f.openForWriting = true) ∧
       f.openForAppending = false) := by
  constructor
  · intro f hf
    rcases hf with hf | hf
    · simp [mkWebDAVFileHandle, hf]
    · by_cases hrw : (f.openForReading && f.openForWriting) = true
      · simp [mkWebDAVFileHandle, hrw]
      · simp [mkWebDAVFileHandle, hrw, hf]
  · intro f h hmk
    unfold mkWebDAVFileHandle at hmk
    by_cases hrw : (f.openForReading && f.openForWriting) = true
    · rw [if_pos hrw] at hmk; exact absurd hmk (by simp)
    · rw [if_neg hrw] at hmk
      by_cases hap : f.openForAppending = true
      · rw [if_pos hap] at hmk; exact absurd hmk (by simp)
      · rw [if_neg hap] at hmk
        have hflags : h = ⟨f⟩ := (Option.some_inj.mp hmk).symm
        refine ⟨by rw [hflags], ?_, by simpa using hap⟩
        intro hc
        exact hrw (by rw [hc.1, hc.2]; rfl)

/-- Witness for C10 at concrete inputs. -/
theorem claim_C10_witness :
    mkWebDAVFileHandle ⟨true, true, false⟩ = none ∧
    mkWebDAVFileHandle ⟨false, true, true⟩ = none :=
  ⟨claim_C10.1 ⟨true, true, false⟩ (Or.inl rfl),
   claim_C10.1 ⟨false, true, true⟩ (Or.inr rfl)⟩

end WebDAVFS
